import Mathlib

set_option maxHeartbeats 1000000

/-! Verification development for the AKUH health-service scraper and
    uploader (source files akuh_scraper.py, akuh_scrape_and_upload.py,
    akuh_uploader.py).  Python strings are modelled as lists of
    characters, HTML documents as trees of element and text nodes, and
    each Python function used by the checked properties is translated
    into an executable Lean definition. -/

/-- Python strings are modelled as lists of characters. -/
abbrev Str := List Char

/-- Character list of a Lean string literal (used to write Python
    string literals). -/
def chars (s : String) : Str := s.data

/-- Whitespace as recognised by Python `str.strip` and the `re` module
    in Unicode (str) mode: ASCII whitespace plus the Unicode space
    characters. -/
def pyIsSpace (c : Char) : Bool :=
  decide (c ∈ [' ', '\t', '\n', '\x0b', '\x0c', '\r',
    '\x1c', '\x1d', '\x1e', '\x1f', '\x85',
    ' ', ' ', ' ', ' ', ' ', ' ', ' ',
    ' ', ' ', ' ', ' ', ' ', ' ',
    ' ', ' ', ' ', ' ', '　'])

/-- The zero-width space character removed by clean_text. -/
def zwsp : Char := '​'

/-- The non-breaking space character replaced by clean_text. -/
def nbsp : Char := ' '

/-- Helper for the regex substitution re.sub(r'\s+', ' ', text): each
    maximal run of whitespace characters is replaced by a single space.
    The boolean records whether the previous character was part of a
    whitespace run. -/
def collapseAux : Bool → Str → Str
  | _, [] => []
  | b, c :: cs =>
    if pyIsSpace c then
      if b then collapseAux true cs else ' ' :: collapseAux true cs
    else c :: collapseAux false cs

/-- re.sub(r'\s+', ' ', text). -/
def collapseWS (s : Str) : Str := collapseAux false s

/-- Python str.lstrip (whitespace). -/
def ltrimWS (s : Str) : Str := s.dropWhile pyIsSpace

/-- Python str.rstrip (whitespace). -/
def rtrimWS (s : Str) : Str := (s.reverse.dropWhile pyIsSpace).reverse

/-- Python str.strip (whitespace). -/
def stripWS (s : Str) : Str := rtrimWS (ltrimWS s)

/-- clean_text from akuh_scraper.py (identical in
    akuh_scrape_and_upload.py): remove the zero-width space, replace
    the non-breaking space by a regular space, collapse whitespace
    runs to single spaces, and strip. -/
def clean_text (s : Str) : Str :=
  stripWS (collapseWS
    ((s.filter (fun c => !(c == zwsp))).map (fun c => if c == nbsp then ' ' else c)))

/-- A string has no two adjacent whitespace characters. -/
def okRun : Str → Prop
  | [] => True
  | [_] => True
  | a :: b :: rest => ¬(pyIsSpace a = true ∧ pyIsSpace b = true) ∧ okRun (b :: rest)

theorem okRun_tail {x : Char} {l : Str} (h : okRun (x :: l)) : okRun l := by
  cases l with
  | nil => trivial
  | cons b r => exact h.2

theorem okRun_append_right : ∀ {u v : Str}, okRun (u ++ v) → okRun v := by
  intro u
  induction u with
  | nil => intro v h; exact h
  | cons a u ih => intro v h; exact ih (okRun_tail h)

theorem okRun_append_left : ∀ {l t : Str}, okRun (l ++ t) → okRun l := by
  intro l
  induction l with
  | nil => intro t _; trivial
  | cons a l ih =>
    intro t h
    cases l with
    | nil => trivial
    | cons b r =>
      exact ⟨h.1, ih (t := t) h.2⟩

/-- Every maximal dropped-prefix decomposition of dropWhile. -/
theorem exists_append_dropWhile (p : Char → Bool) :
    ∀ l : Str, ∃ u, u ++ l.dropWhile p = l := by
  intro l
  induction l with
  | nil => exact ⟨[], rfl⟩
  | cons a l ih =>
    by_cases hp : p a = true
    · obtain ⟨u, hu⟩ := ih
      exact ⟨a :: u, by simp [List.dropWhile, hp, hu]⟩
    · exact ⟨[], by simp [List.dropWhile, hp]⟩

theorem head_dropWhile_false (p : Char → Bool) :
    ∀ (l : Str) (h : Char), (l.dropWhile p).head? = some h → p h = false := by
  intro l
  induction l with
  | nil => intro h hh; simp [List.dropWhile] at hh
  | cons a l ih =>
    intro h hh
    by_cases hp : p a = true
    · rw [List.dropWhile_cons_of_pos hp] at hh
      exact ih h hh
    · rw [List.dropWhile_cons_of_neg hp] at hh
      simp at hh
      rw [← hh]
      exact eq_false_of_ne_true hp

theorem dropWhile_eq_self_of_head (p : Char → Bool) (l : Str)
    (h : ∀ c, l.head? = some c → p c = false) : l.dropWhile p = l := by
  cases l with
  | nil => rfl
  | cons a l => exact List.dropWhile_cons_of_neg (by simp [h a rfl])

/-- Characters of the collapsed string: each is either a space or a
    character of the input. -/
theorem mem_collapseAux :
    ∀ (l : Str) (b : Bool) (c : Char), c ∈ collapseAux b l → c = ' ' ∨ c ∈ l := by
  intro l
  induction l with
  | nil => intro b c hc; simp [collapseAux] at hc
  | cons a l ih =>
    intro b c hc
    by_cases ha : pyIsSpace a = true
    · rw [collapseAux, if_pos ha] at hc
      by_cases hb : b = true
      · subst hb
        rcases ih true c hc with h | h
        · exact Or.inl h
        · exact Or.inr (List.mem_cons_of_mem _ h)
      · rw [if_neg hb] at hc
        simp only [List.mem_cons] at hc
        rcases hc with h | h
        · exact Or.inl h
        · rcases ih true c h with h2 | h2
          · exact Or.inl h2
          · exact Or.inr (List.mem_cons_of_mem _ h2)
    · rw [collapseAux, if_neg ha] at hc
      simp only [List.mem_cons] at hc
      rcases hc with h | h
      · exact Or.inr (h ▸ List.mem_cons_self a l)
      · rcases ih false c h with h2 | h2
        · exact Or.inl h2
        · exact Or.inr (List.mem_cons_of_mem _ h2)

/-- Every whitespace character of the collapsed string is a plain
    space. -/
theorem spaces_collapseAux :
    ∀ (l : Str) (b : Bool) (c : Char),
      c ∈ collapseAux b l → pyIsSpace c = true → c = ' ' := by
  intro l
  induction l with
  | nil => intro b c hc; simp [collapseAux] at hc
  | cons a l ih =>
    intro b c hc hsp
    by_cases ha : pyIsSpace a = true
    · rw [collapseAux, if_pos ha] at hc
      by_cases hb : b = true
      · subst hb; exact ih true c hc hsp
      · rw [if_neg hb] at hc
        simp only [List.mem_cons] at hc
        rcases hc with h | h
        · exact h
        · exact ih true c h hsp
    · rw [collapseAux, if_neg ha] at hc
      simp only [List.mem_cons] at hc
      rcases hc with h | h
      · exact absurd (h ▸ hsp) ha
      · exact ih false c h hsp

/-- The collapsed string has no two adjacent whitespace characters,
    and in continuation mode its first character is not whitespace. -/
theorem okRun_collapseAux :
    ∀ (l : Str) (b : Bool),
      okRun (collapseAux b l) ∧
      (b = true → ∀ h, (collapseAux b l).head? = some h → pyIsSpace h = false) := by
  intro l
  induction l with
  | nil => intro b; exact ⟨trivial, by intro _ h hh; simp [collapseAux] at hh⟩
  | cons a l ih =>
    intro b
    by_cases ha : pyIsSpace a = true
    · by_cases hb : b = true
      · subst hb
        rw [collapseAux, if_pos ha]
        exact ih true
      · rw [collapseAux, if_pos ha, if_neg hb]
        constructor
        · rcases hrest : collapseAux true l with _ | ⟨x, xs⟩
          · trivial
          · refine ⟨?_, ?_⟩
            · intro hcontra
              have hx := (ih true).2 rfl x (by rw [hrest]; rfl)
              rw [hx] at hcontra
              exact absurd hcontra.2 (by simp)
            · have := (ih true).1
              rw [hrest] at this
              exact this
        · intro h; exact absurd h hb
    · rw [collapseAux, if_neg ha]
      constructor
      · rcases hrest : collapseAux false l with _ | ⟨x, xs⟩
        · trivial
        · refine ⟨?_, ?_⟩
          · intro hcontra; exact absurd hcontra.1 ha
          · have := (ih false).1
            rw [hrest] at this
            exact this
      · intro _ h hh
        simp at hh
        rw [← hh]
        exact eq_false_of_ne_true ha

/-- A string with only plain single spaces as whitespace, no adjacent
    spaces, and (in continuation mode) a non-space head is a fixed
    point of the collapsing pass. -/
theorem collapseAux_fix :
    ∀ (l : Str) (b : Bool),
      (∀ c ∈ l, pyIsSpace c = true → c = ' ') →
      okRun l →
      (b = true → ∀ h, l.head? = some h → pyIsSpace h = false) →
      collapseAux b l = l := by
  intro l
  induction l with
  | nil => intro b _ _ _; rfl
  | cons a l ih =>
    intro b hall hok hhead
    by_cases ha : pyIsSpace a = true
    · have hb : b = false := by
        by_contra hb
        have := hhead (eq_true_of_ne_false hb) a rfl
        exact absurd ha (by rw [this]; simp)
      subst hb
      rw [collapseAux, if_pos ha, if_neg (by simp : ¬(false = true))]
      have haeq : a = ' ' := hall a (List.mem_cons_self a l) ha
      have htail : collapseAux true l = l := by
        apply ih true
        · intro c hc hsp; exact hall c (List.mem_cons_of_mem _ hc) hsp
        · exact okRun_tail hok
        · intro _ h hh
          cases l with
          | nil => simp at hh
          | cons x xs =>
            simp at hh
            rw [← hh]
            by_contra hx
            exact hok.1 ⟨ha, eq_true_of_ne_false hx⟩
      rw [htail, haeq]
    · rw [collapseAux, if_neg ha]
      have htail : collapseAux false l = l := by
        apply ih false
        · intro c hc hsp; exact hall c (List.mem_cons_of_mem _ hc) hsp
        · exact okRun_tail hok
        · intro h; exact absurd h (by simp)
      rw [htail]

/-- Decomposition of stripWS: the input is the stripped string with a
    (whitespace) block on each side. -/
theorem stripWS_decomp_right (l : Str) :
    ∃ w : Str, stripWS l ++ w = ltrimWS l := by
  obtain ⟨w, hw⟩ := exists_append_dropWhile pyIsSpace (ltrimWS l).reverse
  refine ⟨w.reverse, ?_⟩
  have h2 := congrArg List.reverse hw
  simp only [List.reverse_append, List.reverse_reverse] at h2
  exact h2

theorem exists_stripWS_decomp (l : Str) : ∃ u v, l = u ++ (stripWS l ++ v) := by
  obtain ⟨u, hu⟩ := exists_append_dropWhile pyIsSpace l
  obtain ⟨w, hw⟩ := stripWS_decomp_right l
  exact ⟨u, w, by rw [hw]; exact hu.symm⟩

theorem mem_stripWS {c : Char} {l : Str} (h : c ∈ stripWS l) : c ∈ l := by
  obtain ⟨u, v, hl⟩ := exists_stripWS_decomp l
  rw [hl]
  simp only [List.mem_append]
  exact Or.inr (Or.inl h)

theorem okRun_stripWS {l : Str} (h : okRun l) : okRun (stripWS l) := by
  obtain ⟨u, v, hl⟩ := exists_stripWS_decomp l
  rw [hl] at h
  exact okRun_append_left (okRun_append_right h)

theorem head_stripWS_false {l : Str} :
    ∀ h, (stripWS l).head? = some h → pyIsSpace h = false := by
  intro h hh
  obtain ⟨w, hw⟩ := stripWS_decomp_right l
  have hne : stripWS l ≠ [] := by
    intro hnil; rw [hnil] at hh; simp at hh
  have : (ltrimWS l).head? = some h := by
    rw [← hw, List.head?_append_of_ne_nil _ hne]
    exact hh
  exact head_dropWhile_false pyIsSpace l h this

theorem revhead_stripWS_false {l : Str} :
    ∀ h, (stripWS l).reverse.head? = some h → pyIsSpace h = false := by
  intro h hh
  have : (stripWS l).reverse = (ltrimWS l).reverse.dropWhile pyIsSpace := by
    simp only [stripWS, rtrimWS, List.reverse_reverse]
  rw [this] at hh
  exact head_dropWhile_false pyIsSpace (ltrimWS l).reverse h hh

/-- A string whose head and reversed head are not whitespace is a
    fixed point of stripWS. -/
theorem stripWS_fix {l : Str}
    (h1 : ∀ c, l.head? = some c → pyIsSpace c = false)
    (h2 : ∀ c, l.reverse.head? = some c → pyIsSpace c = false) :
    stripWS l = l := by
  have hl : ltrimWS l = l := dropWhile_eq_self_of_head pyIsSpace l h1
  show rtrimWS (ltrimWS l) = l
  rw [hl, rtrimWS, dropWhile_eq_self_of_head pyIsSpace l.reverse h2,
    List.reverse_reverse]

/-- C6 helper: characters of the cleaned string are never the
    zero-width space and never the non-breaking space, all whitespace
    in it is a plain space. -/
theorem clean_text_chars {s : Str} {c : Char} (hc : c ∈ clean_text s) :
    c ≠ zwsp ∧ c ≠ nbsp ∧ (pyIsSpace c = true → c = ' ') := by
  have hc2 := mem_stripWS hc
  rcases mem_collapseAux _ false c hc2 with hsp | hmem
  · subst hsp
    refine ⟨by decide, by decide, fun _ => rfl⟩
  · simp only [List.mem_map, List.mem_filter] at hmem
    obtain ⟨d, ⟨_, hd⟩, hdc⟩ := hmem
    have hdzw : d ≠ zwsp := by
      intro h; rw [h] at hd; simp at hd
    constructor
    · intro h
      rw [← hdc] at h
      by_cases hdn : d == nbsp
      · rw [if_pos hdn] at h; exact absurd h (by decide)
      · rw [if_neg hdn] at h; exact hdzw h
    constructor
    · intro h
      rw [← hdc] at h
      by_cases hdn : d == nbsp
      · rw [if_pos hdn] at h; exact absurd h (by decide)
      · rw [if_neg hdn] at h
        exact absurd h (by simpa using hdn)
    · intro hsp
      exact spaces_collapseAux _ false c hc2 hsp

/-- C6: the Text Normalizer clean_text is idempotent. -/
theorem clean_text_idempotent (s : Str) :
    clean_text (clean_text s) = clean_text s := by
  set y := clean_text s with hy
  have hfilter : y.filter (fun c => !(c == zwsp)) = y := by
    apply List.filter_eq_self.2
    intro c hc
    have := (clean_text_chars (hy ▸ hc)).1
    simpa using this
  have hmap : y.map (fun c => if c == nbsp then ' ' else c) = y := by
    have : ∀ c ∈ y, (if c == nbsp then ' ' else c) = c := by
      intro c hc
      have := (clean_text_chars (hy ▸ hc)).2.1
      rw [if_neg (by simpa using this)]
    calc y.map (fun c => if c == nbsp then ' ' else c)
        = y.map id := List.map_congr_left this
    _ = y := List.map_id y
  have hok : okRun y := by
    rw [hy]
    show okRun (stripWS _)
    exact okRun_stripWS (okRun_collapseAux _ false).1
  have hspaces : ∀ c ∈ y, pyIsSpace c = true → c = ' ' := by
    intro c hc
    exact (clean_text_chars (hy ▸ hc)).2.2
  have hcollapse : collapseWS y = y :=
    collapseAux_fix y false hspaces hok (by intro h; exact absurd h (by simp))
  have hstrip : stripWS y = y := by
    apply stripWS_fix
    · intro c hc
      rw [hy] at hc
      exact head_stripWS_false c hc
    · intro c hc
      rw [hy] at hc
      exact revhead_stripWS_false c hc
  show stripWS (collapseWS (List.map _ (List.filter _ y))) = y
  rw [hfilter, hmap, hcollapse, hstrip]

/-! ## The PageRecord data model and the page classifier -/

/-- body_content dictionary returned by extract_body_content
    (akuh_scraper.py lines 119-126). -/
structure BodyContent where
  main_paragraphs : Str
  word_count : Nat
  has_subheadings : Bool
  subheading_tags : List Str
  has_bullet_lists : Bool
  has_collapsible_sections : Bool
deriving DecidableEq

/-- A text-and-url link record (subsection links). -/
structure LinkTU where
  text : Str
  url : Str
deriving DecidableEq

/-- subsection_links dictionary returned by extract_subsection_links. -/
structure SubsectionLinks where
  present : Bool
  count : Nat
  links : List LinkTU
deriving DecidableEq

/-- One faculty link entry. -/
structure FacultyLink where
  text : Str
  url : Str
  specialty : Str
deriving DecidableEq

/-- faculty_links dictionary returned by extract_faculty_links. -/
structure FacultyLinks where
  count : Nat
  pattern : Str
  links : List FacultyLink
deriving DecidableEq

/-- click_here_link component of the appointment section. -/
structure ClickHereLink where
  present : Bool
  text : Str
  url : Str
deriving DecidableEq

/-- family_hifazat component of the appointment section. -/
structure FamilyHifazat where
  main_link_present : Bool
  google_play_button : Bool
  app_store_button : Bool
deriving DecidableEq

/-- appointment dictionary returned by extract_appointment_section. -/
structure AppointmentSection where
  present : Bool
  heading : Str
  click_here_link : ClickHereLink
  phone_number : Str
  family_hifazat : FamilyHifazat
deriving DecidableEq

/-- One entry of the external_links list; the dictionary key `type` is
    rendered as the field `type`. -/
structure ExternalLink where
  text : Str
  url : Str
  type : Str
deriving DecidableEq

/-- The full extracted record assembled in scrape_page (akuh_scraper.py
    lines 359-369) and consumed by classify_page_type. -/
structure PageData where
  url : Str
  page_title : Str
  breadcrumb : Str
  has_h1_title : Bool
  body_content : BodyContent
  subsection_links : SubsectionLinks
  faculty_links : FacultyLinks
  appointment_section : AppointmentSection
  external_links : List ExternalLink
deriving DecidableEq

/-- classify_page_type from akuh_scraper.py lines 317-337 (identical in
    akuh_scrape_and_upload.py lines 364-384). -/
def classify_page_type (data : PageData) : Str :=
  if data.subsection_links.present then chars "parent_overview"
  else if !data.has_h1_title then chars "service_complex"
  else if data.body_content.has_collapsible_sections then chars "service_complex"
  else if decide (3 < data.faculty_links.count) then chars "multi_specialty"
  else if decide (data.faculty_links.count = 1) && !data.appointment_section.present then
    chars "simple"
  else if data.body_content.has_subheadings && decide (data.faculty_links.count = 0) then
    chars "structured"
  else chars "standard"

/-- The ordered decision list of spec section 4.4, written as an
    explicit sequence of (predicate, result) pairs. -/
def classifierRules : List ((PageData → Bool) × Str) :=
  [(fun d => d.subsection_links.present, chars "parent_overview"),
   (fun d => !d.has_h1_title, chars "service_complex"),
   (fun d => d.body_content.has_collapsible_sections, chars "service_complex"),
   (fun d => decide (3 < d.faculty_links.count), chars "multi_specialty"),
   (fun d => decide (d.faculty_links.count = 1) && !d.appointment_section.present,
     chars "simple"),
   (fun d => d.body_content.has_subheadings && decide (d.faculty_links.count = 0),
     chars "structured")]

/-- First-match evaluation of a decision list, default result
    "standard". -/
def firstMatchRule (d : PageData) : List ((PageData → Bool) × Str) → Str
  | [] => chars "standard"
  | r :: rest => if r.1 d then r.2 else firstMatchRule d rest

/-- C1: classify_page_type implements the ordered first-match decision
    list of the spec; in particular a record with subsection links is
    classified parent_overview regardless of all other fields, and a
    record with no primary heading and faculty link count 10 is not
    classified multi_specialty but (when rule 1 does not fire)
    service_complex. -/
theorem classify_page_type_decision_list (d : PageData) :
    classify_page_type d = firstMatchRule d classifierRules ∧
    (d.subsection_links.present = true →
      classify_page_type d = chars "parent_overview") ∧
    (d.has_h1_title = false → d.faculty_links.count = 10 →
      classify_page_type d ≠ chars "multi_specialty" ∧
      (d.subsection_links.present = false →
        classify_page_type d = chars "service_complex")) := by
  refine ⟨?_, ?_, ?_⟩
  · simp only [classify_page_type, firstMatchRule, classifierRules]
  · intro h; simp [classify_page_type, h]
  · intro hh hc
    constructor
    · by_cases hs : d.subsection_links.present
      · simp [classify_page_type, hs]
        decide
      · simp only [Bool.not_eq_true] at hs
        simp [classify_page_type, hs, hh]
        decide
    · intro hs
      simp [classify_page_type, hs, hh]

/-- Concrete record: subsection links present, conflicting other
    signals. -/
def pdSub : PageData :=
  ⟨[], [], [], false, ⟨[], 0, true, [], false, true⟩,
   ⟨true, 1, [⟨chars "Cardiac Surgery", chars "cardiac.html"⟩]⟩,
   ⟨10, chars "multiple", []⟩,
   ⟨false, [], ⟨false, [], []⟩, [], ⟨false, false, false⟩⟩, []⟩

/-- Concrete record: no primary heading, ten faculty links, no
    subsection links. -/
def pdTen : PageData :=
  ⟨[], [], [], false, ⟨[], 0, false, [], false, false⟩, ⟨false, 0, []⟩,
   ⟨10, chars "multiple", []⟩,
   ⟨false, [], ⟨false, [], []⟩, [], ⟨false, false, false⟩⟩, []⟩

theorem classify_page_type_decision_list_witness :
    classify_page_type pdSub = chars "parent_overview" ∧
    classify_page_type pdTen = chars "service_complex" :=
  ⟨(classify_page_type_decision_list pdSub).2.1 rfl,
   ((classify_page_type_decision_list pdTen).2.2 rfl rfl).2 rfl⟩

/-- C2: classify_page_type depends only on the six fields
    has_h1_title, subsection_links.present,
    body_content.has_collapsible_sections, faculty_links.count,
    appointment_section.present and body_content.has_subheadings, and
    its value is always one of the six page-type literals. -/
theorem classify_page_type_pure_and_range (d₁ d₂ : PageData)
    (h1 : d₁.has_h1_title = d₂.has_h1_title)
    (h2 : d₁.subsection_links.present = d₂.subsection_links.present)
    (h3 : d₁.body_content.has_collapsible_sections =
      d₂.body_content.has_collapsible_sections)
    (h4 : d₁.faculty_links.count = d₂.faculty_links.count)
    (h5 : d₁.appointment_section.present = d₂.appointment_section.present)
    (h6 : d₁.body_content.has_subheadings = d₂.body_content.has_subheadings) :
    classify_page_type d₁ = classify_page_type d₂ ∧
    classify_page_type d₁ ∈ [chars "parent_overview", chars "service_complex",
      chars "multi_specialty", chars "simple", chars "structured",
      chars "standard"] := by
  constructor
  · simp only [classify_page_type, h1, h2, h3, h4, h5, h6]
  · simp only [classify_page_type]
    split_ifs <;> simp

/-- Record agreeing with pdTen on the six classifier inputs but
    differing on every other field. -/
def pdTenVariant : PageData :=
  ⟨chars "https://hospitals.aku.edu/x", chars "Cardiology", chars "Home > X",
   false,
   ⟨chars "Some body text.", 3, false, [], true, false⟩,
   ⟨false, 0, []⟩,
   ⟨10, chars "none", [⟨chars "Meet our team", chars "/findadoctor.aspx", []⟩]⟩,
   ⟨false, chars "Request an Appointment", ⟨true, chars "here", chars "u"⟩,
     chars "(021)111911911", ⟨true, true, false⟩⟩,
   [⟨chars "PDF", chars "a.pdf", chars "document"⟩]⟩

theorem classify_page_type_pure_and_range_witness :
    classify_page_type pdTen = classify_page_type pdTenVariant ∧
    classify_page_type pdTen ∈ [chars "parent_overview",
      chars "service_complex", chars "multi_specialty", chars "simple",
      chars "structured", chars "standard"] :=
  classify_page_type_pure_and_range pdTen pdTenVariant rfl rfl rfl rfl rfl rfl

/-! ## slugify (akuh_uploader.py lines 76-83, akuh_scrape_and_upload.py
    lines 105-112) -/

/-- The regex class \w in Unicode mode: ASCII letters and digits and
    the underscore; characters beyond ASCII are approximated as word
    characters (the properties proved below hold for any such
    classification). -/
def pyIsWordChar (c : Char) : Bool :=
  c.isAlphanum || c == '_' || decide (127 < c.toNat)

/-- Characters kept by re.sub(r"[^\w\s-]", "", s). -/
def slugKeep (c : Char) : Bool := pyIsWordChar c || pyIsSpace c || c == '-'

/-- A character of the class [\s_-] collapsed to a hyphen by
    re.sub(r"[\s_-]+", "-", s). -/
def dashRun (c : Char) : Bool := pyIsSpace c || c == '_' || c == '-'

/-- Run-collapsing for re.sub(r"[\s_-]+", "-", s). -/
def dashAux : Bool → Str → Str
  | _, [] => []
  | b, c :: cs =>
    if dashRun c then
      if b then dashAux true cs else '-' :: dashAux true cs
    else c :: dashAux false cs

/-- Python str.strip("-"). -/
def stripDash (s : Str) : Str :=
  ((s.dropWhile (fun c => c == '-')).reverse.dropWhile (fun c => c == '-')).reverse

/-- Python str.rstrip("-"). -/
def rstripDash (s : Str) : Str :=
  (s.reverse.dropWhile (fun c => c == '-')).reverse

/-- The decimal digits of a natural number, most significant first
    (models the str() rendering of int(time.time())). -/
def natDigits (n : Nat) : Str :=
  if h : n < 10 then [Nat.digitChar n]
  else
    have : n / 10 < n := Nat.div_lt_self (by omega) (by omega)
    natDigits (n / 10) ++ [Nat.digitChar (n % 10)]
termination_by n

/-- The normalisation part of slugify: strip, lowercase, drop
    characters outside [\w\s-], collapse [\s_-] runs to single
    hyphens, strip hyphens. -/
def normalizeSlug (s : Str) : Str :=
  stripDash (dashAux false (((stripWS s).map Char.toLower).filter slugKeep))

/-- slugify from akuh_uploader.py; the nondeterministic call
    int(time.time()) is passed in as the parameter ts, and the keyword
    parameter max_len (default 90 at every call site) is passed
    positionally. -/
def slugify (ts : Nat) (s : Str) (max_len : Nat) : Str :=
  let s4 := normalizeSlug s
  let s5 := if s4 = [] then chars "service-" ++ natDigits ts else s4
  rstripDash (s5.take max_len)

theorem dropWhile_eq_nil_mem (p : Char → Bool) :
    ∀ l : Str, l.dropWhile p = [] → ∀ c ∈ l, p c = true := by
  intro l
  induction l with
  | nil => intro _ c hc; simp at hc
  | cons a l ih =>
    intro hd c hc
    by_cases hp : p a = true
    · rw [List.dropWhile_cons_of_pos hp] at hd
      rcases List.mem_cons.1 hc with h | h
      · rw [h]; exact hp
      · exact ih hd c h
    · rw [List.dropWhile_cons_of_neg hp] at hd
      simp at hd

/-- A right hyphen-strip of a truncation of a list whose head is not a
    hyphen is nonempty. -/
theorem rstripDash_take_ne_nil {x : Str} {h0 : Char} {m : Nat}
    (hhead : x.head? = some h0) (hh : (h0 == '-') = false) (hm : 1 ≤ m) :
    rstripDash (x.take m) ≠ [] := by
  intro hnil
  cases x with
  | nil => simp at hhead
  | cons a t =>
    have ha : a = h0 := by simpa using hhead
    obtain ⟨k, rfl⟩ : ∃ k, m = k + 1 := ⟨m - 1, by omega⟩
    have htake : (a :: t).take (k + 1) = a :: t.take k := rfl
    rw [htake] at hnil
    have hrev : ((a :: t.take k).reverse).dropWhile (fun c => c == '-') = [] := by
      have := congrArg List.reverse hnil
      simpa [rstripDash] using this
    have hmem := dropWhile_eq_nil_mem (fun c => c == '-') _ hrev a
      (by simp)
    simp only [beq_iff_eq] at hmem
    simp only [beq_eq_false_iff_ne] at hh
    exact hh (ha ▸ hmem)

theorem head_stripDash_not_dash (m : Str) :
    ∀ h, (stripDash m).head? = some h → (h == '-') = false := by
  intro h hh
  obtain ⟨w, hw⟩ := exists_append_dropWhile (fun c => c == '-')
    ((m.dropWhile (fun c => c == '-')).reverse)
  have hdec : stripDash m ++ w.reverse = m.dropWhile (fun c => c == '-') := by
    have h2 := congrArg List.reverse hw
    simpa [stripDash, List.reverse_append] using h2
  have hne : stripDash m ≠ [] := by
    intro hnil; rw [hnil] at hh; simp at hh
  have : (m.dropWhile (fun c => c == '-')).head? = some h := by
    rw [← hdec, List.head?_append_of_ne_nil _ hne]
    exact hh
  exact head_dropWhile_false (fun c => c == '-') m h this

theorem length_rstripDash_take (x : Str) (m : Nat) :
    (rstripDash (x.take m)).length ≤ m := by
  calc (rstripDash (x.take m)).length
      = ((x.take m).reverse.dropWhile (fun c => c == '-')).length := by
        simp [rstripDash]
  _ ≤ (x.take m).reverse.length := List.Sublist.length_le (List.dropWhile_sublist _)
  _ = (x.take m).length := by simp
  _ ≤ m := by simp [List.length_take]

/-- C10: slugify always returns a nonempty slug of at most max_len
    characters (for any positive max_len; every call site uses the
    default 90), falling back to "service-" ++ timestamp when the
    normalised title is empty. -/
theorem slugify_nonempty (ts : Nat) (s : Str) (m : Nat) (hm : 1 ≤ m) :
    slugify ts s m ≠ [] ∧ (slugify ts s m).length ≤ m ∧
    (normalizeSlug s = [] →
      slugify ts s m = rstripDash ((chars "service-" ++ natDigits ts).take m)) := by
  refine ⟨?_, ?_, ?_⟩
  · show rstripDash ((if normalizeSlug s = [] then
      chars "service-" ++ natDigits ts else normalizeSlug s).take m) ≠ []
    by_cases h4 : normalizeSlug s = []
    · rw [if_pos h4]
      exact rstripDash_take_ne_nil
        (show (chars "service-" ++ natDigits ts).head? = some 's' from rfl)
        (by decide) hm
    · rw [if_neg h4]
      rcases hx : (normalizeSlug s).head? with _ | h0
      · rw [List.head?_eq_none_iff] at hx
        exact absurd hx h4
      · exact rstripDash_take_ne_nil hx
          (head_stripDash_not_dash _ h0 hx) hm
  · exact length_rstripDash_take _ m
  · intro h4
    show rstripDash ((if normalizeSlug s = [] then
      chars "service-" ++ natDigits ts else normalizeSlug s).take m) = _
    rw [if_pos h4]

theorem slugify_nonempty_witness :
    slugify 1760000000 (chars "  Heart, Lung & Vascular!  ") 90 ≠ [] ∧
    (slugify 1760000000 (chars "  Heart, Lung & Vascular!  ") 90).length ≤ 90 ∧
    (normalizeSlug (chars "  Heart, Lung & Vascular!  ") = [] →
      slugify 1760000000 (chars "  Heart, Lung & Vascular!  ") 90 =
        rstripDash ((chars "service-" ++ natDigits 1760000000).take 90)) :=
  slugify_nonempty 1760000000 (chars "  Heart, Lung & Vascular!  ") 90 (by decide)

/-! ## run_upload (akuh_scrape_and_upload.py lines 1113-1189 and
    akuh_uploader.py lines 355-437) -/

/-- One persisted record as seen by the upload loop: whether
    json.loads succeeds, the stored page_title and
    body_content.main_paragraphs, and an oracle telling whether the
    remote story-creation call would succeed for it. -/
structure UploadRec where
  parse_ok : Bool
  page_title : Str
  main_paragraphs : Str
  create_ok : Bool
deriving DecidableEq

/-- The observable state of the upload loop: the two counters and the
    trace of remote story-creation calls (by stripped title). -/
structure UploadState where
  uploaded : Nat
  failed : Nat
  remote_calls : List Str
deriving DecidableEq

/-- Count a record as failed without any remote call. -/
def addFailed (st : UploadState) : UploadState :=
  ⟨st.uploaded, st.failed + 1, st.remote_calls⟩

/-- One iteration of the record loop of run_upload in
    akuh_scrape_and_upload.py (lines 1138-1182): an unparsable record,
    an empty stripped page_title, or an empty stripped main_paragraphs
    each skip the record and count it failed; otherwise the remote
    story-creation call is made (appended to remote_calls) and its
    outcome counted. -/
def uploadStepCombined (st : UploadState) (r : UploadRec) : UploadState :=
  if !r.parse_ok then addFailed st
  else if stripWS r.page_title = [] then addFailed st
  else if stripWS r.main_paragraphs = [] then addFailed st
  else
    if r.create_ok then
      ⟨st.uploaded + 1, st.failed, st.remote_calls ++ [stripWS r.page_title]⟩
    else
      ⟨st.uploaded, st.failed + 1, st.remote_calls ++ [stripWS r.page_title]⟩

/-- One iteration of the record loop of run_upload in akuh_uploader.py
    (lines 383-436): an empty stripped main_paragraphs only produces a
    warning there; the record still proceeds to the remote call. -/
def uploadStepUploader (st : UploadState) (r : UploadRec) : UploadState :=
  if !r.parse_ok then addFailed st
  else if stripWS r.page_title = [] then addFailed st
  else
    if r.create_ok then
      ⟨st.uploaded + 1, st.failed, st.remote_calls ++ [stripWS r.page_title]⟩
    else
      ⟨st.uploaded, st.failed + 1, st.remote_calls ++ [stripWS r.page_title]⟩

/-- run_upload of akuh_scrape_and_upload.py over a list of parsed
    records, starting from zero counters. -/
def run_upload_combined (rs : List UploadRec) : UploadState :=
  rs.foldl uploadStepCombined ⟨0, 0, []⟩

/-- run_upload of akuh_uploader.py over a list of parsed records. -/
def run_upload_uploader (rs : List UploadRec) : UploadState :=
  rs.foldl uploadStepUploader ⟨0, 0, []⟩

theorem uploadStepCombined_addFailed (st : UploadState) (r : UploadRec) :
    uploadStepCombined (addFailed st) r = addFailed (uploadStepCombined st r) := by
  simp only [uploadStepCombined, addFailed]
  split_ifs <;> rfl

theorem uploadStepUploader_addFailed (st : UploadState) (r : UploadRec) :
    uploadStepUploader (addFailed st) r = addFailed (uploadStepUploader st r) := by
  simp only [uploadStepUploader, addFailed]
  split_ifs <;> rfl

theorem foldl_uploadStepCombined_addFailed (rs : List UploadRec) :
    ∀ st, rs.foldl uploadStepCombined (addFailed st) =
      addFailed (rs.foldl uploadStepCombined st) := by
  induction rs with
  | nil => intro st; rfl
  | cons r rs ih =>
    intro st
    simp only [List.foldl_cons, uploadStepCombined_addFailed, ih]

theorem foldl_uploadStepUploader_addFailed (rs : List UploadRec) :
    ∀ st, rs.foldl uploadStepUploader (addFailed st) =
      addFailed (rs.foldl uploadStepUploader st) := by
  induction rs with
  | nil => intro st; rfl
  | cons r rs ih =>
    intro st
    simp only [List.foldl_cons, uploadStepUploader_addFailed, ih]

/-- An invalid record (empty stripped title or body) is skipped by the
    combined-script step: failed is incremented and nothing else
    changes. -/
theorem uploadStepCombined_skip (st : UploadState) (r : UploadRec)
    (h : stripWS r.page_title = [] ∨ stripWS r.main_paragraphs = []) :
    uploadStepCombined st r = addFailed st := by
  rcases h with h | h <;> simp [uploadStepCombined, h]

/-- C4 (amended): in akuh_scrape_and_upload.py run_upload, a record
    whose stripped page_title or stripped main_paragraphs is empty is
    skipped: the failed counter is incremented, no remote call is made
    for it, and the remaining records are processed exactly as if the
    bad record were absent.  In akuh_uploader.py run_upload the same
    holds for an empty title; an empty body there is only a warning. -/
theorem run_upload_skips_invalid (pre post : List UploadRec) (bad : UploadRec)
    (hbad : stripWS bad.page_title = [] ∨ stripWS bad.main_paragraphs = []) :
    run_upload_combined (pre ++ bad :: post) =
      addFailed (run_upload_combined (pre ++ post)) ∧
    (stripWS bad.page_title = [] →
      run_upload_uploader (pre ++ bad :: post) =
        addFailed (run_upload_uploader (pre ++ post))) := by
  constructor
  · show (pre ++ bad :: post).foldl uploadStepCombined ⟨0, 0, []⟩ = _
    rw [List.foldl_append, List.foldl_cons,
      uploadStepCombined_skip _ bad hbad,
      foldl_uploadStepCombined_addFailed]
    show _ = addFailed ((pre ++ post).foldl uploadStepCombined ⟨0, 0, []⟩)
    rw [List.foldl_append]
  · intro ht
    show (pre ++ bad :: post).foldl uploadStepUploader ⟨0, 0, []⟩ = _
    have hskip : uploadStepUploader (pre.foldl uploadStepUploader ⟨0, 0, []⟩) bad =
        addFailed (pre.foldl uploadStepUploader ⟨0, 0, []⟩) := by
      simp [uploadStepUploader, ht]
    rw [List.foldl_append, List.foldl_cons, hskip,
      foldl_uploadStepUploader_addFailed]
    show _ = addFailed ((pre ++ post).foldl uploadStepUploader ⟨0, 0, []⟩)
    rw [List.foldl_append]

/-- A record that parses, has an empty title after stripping, and
    would succeed remotely if attempted. -/
def recEmptyTitle : UploadRec := ⟨true, chars "   ", chars "Body text.", true⟩

/-- A good record. -/
def recGood : UploadRec := ⟨true, chars "Cardiology", chars "Body text.", true⟩

theorem run_upload_skips_invalid_witness :
    run_upload_combined [recGood, recEmptyTitle, recGood] =
      addFailed (run_upload_combined [recGood, recGood]) ∧
    (stripWS recEmptyTitle.page_title = [] →
      run_upload_uploader [recGood, recEmptyTitle, recGood] =
        addFailed (run_upload_uploader [recGood, recGood])) :=
  run_upload_skips_invalid [recGood] [recGood] recEmptyTitle (Or.inl (by decide))

/-- A record with a nonempty title but an empty body. -/
def recEmptyBody : UploadRec := ⟨true, chars "Cardiology", chars "  ", true⟩

/-- C4 counterexample: the claim quotes run_upload of akuh_uploader.py
    as a source, but that version does not skip a record whose body
    main_paragraphs text is empty: for recEmptyBody it performs the
    remote call, counts the record as uploaded, and leaves the failed
    counter at zero. -/
theorem run_upload_uploader_empty_body_counterexample :
    run_upload_uploader [recEmptyBody] = ⟨1, 0, [chars "Cardiology"]⟩ ∧
    (run_upload_uploader [recEmptyBody]).remote_calls ≠ [] ∧
    (run_upload_uploader [recEmptyBody]).failed = 0 ∧
    stripWS recEmptyBody.main_paragraphs = [] := by
  refine ⟨by decide, by decide, by decide, by decide⟩

/-! ## The document tree model

    A parsed HTML document is a tree of element nodes (tag, attributes,
    children) and text nodes.  BeautifulSoup behaviour relevant here:
    find/find_all walk descendants in document (pre-order) order,
    get_text concatenates all text descendants, and a found Tag is
    always truthy (Tag.__bool__ is constant True), so `if tag:` is
    `if tag is not None:`. -/

inductive Node where
  | elem (tag : Str) (attrs : List (Str × Str)) (children : List Node)
  | txt (s : Str)

mutual
/-- Tag.get_text(): concatenation of all text descendants in document
    order. -/
def getText : Node → Str
  | .txt s => s
  | .elem _ _ ch => getTextList ch

def getTextList : List Node → Str
  | [] => []
  | n :: ns => getText n ++ getTextList ns
end

mutual
/-- All proper descendants of a node in document (pre-order) order;
    this is the search order of find and find_all. -/
def descendants : Node → List Node
  | .txt _ => []
  | .elem _ _ ch => descList ch

def descList : List Node → List Node
  | [] => []
  | n :: ns => n :: (descendants n ++ descList ns)
end

/-- The tag name of an element node. -/
def tagOf : Node → Option Str
  | .elem t _ _ => some t
  | .txt _ => none

/-- First value bound to an attribute key. -/
def lookupAttr : List (Str × Str) → Str → Option Str
  | [], _ => none
  | (k, v) :: r, key => if k = key then some v else lookupAttr r key

/-- Tag.get(key) (None when absent). -/
def attrOf : Node → Str → Option Str
  | .elem _ attrs _, key => lookupAttr attrs key
  | .txt _, _ => none

/-- The attribute filter key=True of find: the attribute is present. -/
def hasAttr (n : Node) (key : Str) : Bool := (attrOf n key).isSome

def isTag (n : Node) (t : Str) : Bool := decide (tagOf n = some t)

/-- soup.find(tag): first descendant element with the tag, in document
    order. -/
def findTag (root : Node) (t : Str) : Option Node :=
  (descendants root).find? (fun n => isTag n t)

/-- soup.find_all(tag). -/
def findAllTag (root : Node) (t : Str) : List Node :=
  (descendants root).filter (fun n => isTag n t)

/-- soup.find(predicate) for an arbitrary element filter. -/
def findFirst (root : Node) (p : Node → Bool) : Option Node :=
  (descendants root).find? p

/-- Python substring containment: needle in hay. -/
def containsSub (needle hay : Str) : Bool :=
  hay.tails.any (fun t => needle.isPrefixOf t)

/-- Python str.lower (ASCII approximation of Unicode lowercasing; the
    substrings compared in the sources are ASCII). -/
def lowerStr (s : Str) : Str := s.map Char.toLower

/-! ## extract_title (akuh_scraper.py lines 45-56,
    akuh_scrape_and_upload.py lines 118-126) -/

/-- extract_title: the cleaned text of the first h1 if any, else of
    the first h2, else the literal "Untitled". -/
def extract_title (soup : Node) : Str :=
  match findTag soup (chars "h1") with
  | some h1 => clean_text (getText h1)
  | none =>
    match findTag soup (chars "h2") with
    | some h2 => clean_text (getText h2)
    | none => chars "Untitled"

/-- The heading whose cleaned text extract_title returns, when one is
    found. -/
def selectedHeading (soup : Node) : Option Node :=
  match findTag soup (chars "h1") with
  | some h1 => some h1
  | none => findTag soup (chars "h2")

/-- A document whose first h1 has whitespace-only text. -/
def docBlankH1 : Node :=
  .elem (chars "html") []
    [.elem (chars "body") []
      [.elem (chars "h1") [] [.txt (chars "   ")],
       .elem (chars "h2") [] [.txt (chars "Cardiology")]]]

/-- C3 counterexample: the first h1 of docBlankH1 exists but its text
    is whitespace-only, and extract_title returns the empty string,
    not a non-empty fallback. -/
theorem extract_title_counterexample :
    extract_title docBlankH1 = [] ∧
    (findTag docBlankH1 (chars "h1")).isSome = true := by
  exact ⟨rfl, rfl⟩

/-- C3 (amended): extract_title returns the cleaned text of the first
    h1 when one exists (else of the first h2, else "Untitled"); the
    result is nonempty unless a heading is selected and its cleaned
    text is empty (for example whitespace-only), and it is the literal
    "Untitled" whenever the document has neither an h1 nor an h2. -/
theorem extract_title_amended (soup : Node) :
    (extract_title soup ≠ [] ∨
      (∃ h, selectedHeading soup = some h ∧ clean_text (getText h) = [])) ∧
    (findTag soup (chars "h1") = none → findTag soup (chars "h2") = none →
      extract_title soup = chars "Untitled") := by
  constructor
  · rcases hh1 : findTag soup (chars "h1") with _ | h1
    · rcases hh2 : findTag soup (chars "h2") with _ | h2
      · left
        simp only [extract_title, hh1, hh2]
        decide
      · by_cases he : clean_text (getText h2) = []
        · right
          exact ⟨h2, by simp [selectedHeading, hh1, hh2], he⟩
        · left
          simp only [extract_title, hh1, hh2]
          exact he
    · by_cases he : clean_text (getText h1) = []
      · right
        exact ⟨h1, by simp [selectedHeading, hh1], he⟩
      · left
        simp only [extract_title, hh1]
        exact he
  · intro h1n h2n
    simp [extract_title, h1n, h2n]

/-- A document with no h1 and no h2 at all. -/
def docNoHeadings : Node :=
  .elem (chars "html") []
    [.elem (chars "body") [] [.txt (chars "plain text only")]]

theorem extract_title_amended_witness :
    extract_title docNoHeadings = chars "Untitled" :=
  (extract_title_amended docNoHeadings).2 rfl rfl

/-! ## extract_body_content (akuh_scraper.py lines 75-126,
    akuh_scrape_and_upload.py lines 143-218) -/

/-- Whitespace-splitting shared by Python str.split() (no argument)
    and the whitespace-separated class-token list of an HTML class
    attribute; the accumulator holds the current word reversed. -/
def wordsAux : Str → Str → List Str
  | [], acc => if acc.isEmpty then [] else [acc.reverse]
  | c :: cs, acc =>
    if pyIsSpace c then
      if acc.isEmpty then wordsAux cs [] else acc.reverse :: wordsAux cs []
    else wordsAux cs (c :: acc)

/-- Python str.split(): maximal nonempty runs of non-whitespace. -/
def pyWords (s : Str) : List Str := wordsAux s []

/-- CSS class selector matching (div.ContentMain): the token appears
    in the whitespace-separated class attribute. -/
def hasClassToken (n : Node) (tok : Str) : Bool :=
  match attrOf n (chars "class") with
  | some c => decide (tok ∈ pyWords c)
  | none => false

def selContentMain (n : Node) : Bool :=
  isTag n (chars "div") && hasClassToken n (chars "ContentMain")

def selMainContentZone (n : Node) : Bool :=
  isTag n (chars "div") && hasClassToken n (chars "MainContentZone")

def selRoleMain (n : Node) : Bool :=
  isTag n (chars "div") && decide (attrOf n (chars "role") = some (chars "main"))

def selArticle (n : Node) : Bool := isTag n (chars "article")

def selMainTag (n : Node) : Bool := isTag n (chars "main")

/-- The structural-selector loop: select_one on each of
    div.ContentMain, div.MainContentZone, div[role=main], article,
    main, in that order, first hit wins. -/
def structuralContent (soup : Node) : Option Node :=
  match findFirst soup selContentMain with
  | some n => some n
  | none =>
    match findFirst soup selMainContentZone with
    | some n => some n
    | none =>
      match findFirst soup selRoleMain with
      | some n => some n
      | none =>
        match findFirst soup selArticle with
        | some n => some n
        | none => findFirst soup selMainTag

/-- The fallback filter: a div whose class attribute contains one of
    the four substrings (lowercased), as in the class_ lambda of the
    source; an occurrence cannot span a class-token boundary, so the
    raw attribute string is checked. -/
def contentClassSub (n : Node) : Bool :=
  isTag n (chars "div") &&
  (match attrOf n (chars "class") with
   | some c =>
     containsSub (chars "content") (lowerStr c) ||
     containsSub (chars "main") (lowerStr c) ||
     containsSub (chars "body") (lowerStr c) ||
     containsSub (chars "article") (lowerStr c)
   | none => false)

/-- div.find('p') or div.find('h1') or div.find('h2'). -/
def hasParaOrHeading (n : Node) : Bool :=
  (findTag n (chars "p")).isSome || (findTag n (chars "h1")).isSome ||
  (findTag n (chars "h2")).isSome

/-- The fallback loop: first content-classed div that contains a
    paragraph or heading. -/
def fallbackContentDiv (soup : Node) : Option Node :=
  findFirst soup (fun n => contentClassSub n && hasParaOrHeading n)

/-- The content-region locator of extract_body_content: structural
    selectors, else the class-substring fallback, else soup.body, else
    the soup itself. -/
def locateContent (soup : Node) : Node :=
  match structuralContent soup with
  | some n => n
  | none =>
    match fallbackContentDiv soup with
    | some n => n
    | none =>
      match findTag soup (chars "body") with
      | some b => b
      | none => soup

/-- EXCLUDED_SECTIONS (akuh_scraper.py lines 22-27). -/
def EXCLUDED_SECTIONS : List Str :=
  [chars "Resources and Information", chars "Quick Links",
   chars "Website Policies", chars "© The Aga Khan University Hospital"]

/-- The paragraph filter: cleaned text longer than 10 characters (the
    nonemptiness test of the source is subsumed) and containing no
    excluded-section title. -/
def paraKeep (t : Str) : Bool :=
  decide (10 < t.length) && !(EXCLUDED_SECTIONS.any (fun ex => containsSub ex t))

/-- The kept cleaned paragraph texts of the content region. -/
def bodyParagraphs (cd : Node) : List Str :=
  ((findAllTag cd (chars "p")).map (fun p => clean_text (getText p))).filter paraKeep

/-- An h4 whose id attribute contains "collapse" (lowercased). -/
def hasCollapsibleH4 (cd : Node) : Bool :=
  (findFirst cd (fun n =>
    isTag n (chars "h4") &&
    (match attrOf n (chars "id") with
     | some i => containsSub (chars "collapse") (lowerStr i)
     | none => false))).isSome

/-- extract_body_content from akuh_scraper.py lines 75-126. -/
def extract_body_content (soup : Node) : BodyContent :=
  let cd := locateContent soup
  let paragraphs := bodyParagraphs cd
  let main_text := List.intercalate (chars "\n\n") paragraphs
  let subheadings := ([chars "h2", chars "h3", chars "h4", chars "h5",
    chars "h6"]).filter (fun t => (findTag cd t).isSome)
  ⟨main_text,
   (pyWords main_text).length,
   !subheadings.isEmpty,
   subheadings,
   (findTag cd (chars "ul")).isSome || (findTag cd (chars "ol")).isSome,
   hasCollapsibleH4 cd⟩

/-- C5: extract_body_content is total; its content-region locator
    follows the documented precedence (first structural selector
    match, else first content-classed container holding a paragraph or
    heading, else the document body, else the document root), and
    every field of the returned fragment takes its fallback value
    (empty string, zero, false, empty list) when the expected elements
    are absent. -/
theorem extract_body_content_total (soup : Node) :
    (∀ n, structuralContent soup = some n → locateContent soup = n) ∧
    (structuralContent soup = none →
      ∀ n, fallbackContentDiv soup = some n → locateContent soup = n) ∧
    (structuralContent soup = none → fallbackContentDiv soup = none →
      ∀ b, findTag soup (chars "body") = some b → locateContent soup = b) ∧
    (structuralContent soup = none → fallbackContentDiv soup = none →
      findTag soup (chars "body") = none → locateContent soup = soup) ∧
    (bodyParagraphs (locateContent soup) = [] →
      (extract_body_content soup).main_paragraphs = [] ∧
      (extract_body_content soup).word_count = 0) ∧
    ((∀ t ∈ [chars "h2", chars "h3", chars "h4", chars "h5", chars "h6"],
        findTag (locateContent soup) t = none) →
      (extract_body_content soup).has_subheadings = false ∧
      (extract_body_content soup).subheading_tags = []) ∧
    (findTag (locateContent soup) (chars "ul") = none →
      findTag (locateContent soup) (chars "ol") = none →
      (extract_body_content soup).has_bullet_lists = false) ∧
    (hasCollapsibleH4 (locateContent soup) = false →
      (extract_body_content soup).has_collapsible_sections = false) := by
  refine ⟨?_, ?_, ?_, ?_, ?_, ?_, ?_, ?_⟩
  · intro n h; simp [locateContent, h]
  · intro h1 n h2; simp [locateContent, h1, h2]
  · intro h1 h2 b h3; simp [locateContent, h1, h2, h3]
  · intro h1 h2 h3; simp [locateContent, h1, h2, h3]
  · intro h
    constructor
    · simp only [extract_body_content, h]
      rfl
    · simp only [extract_body_content, h]
      rfl
  · intro h
    have e2 := h (chars "h2") (by simp)
    have e3 := h (chars "h3") (by simp)
    have e4 := h (chars "h4") (by simp)
    have e5 := h (chars "h5") (by simp)
    have e6 := h (chars "h6") (by simp)
    constructor
    · simp [extract_body_content, e2, e3, e4, e5, e6]
    · simp [extract_body_content, e2, e3, e4, e5, e6]
  · intro h1 h2; simp [extract_body_content, h1, h2]
  · intro h; simp [extract_body_content, h]

/-- A document with no structural container, no content-classed div,
    no body element and no content elements at all. -/
def docBare : Node :=
  .elem (chars "html") [] [.elem (chars "span") [] [.txt (chars "hi")]]

theorem extract_body_content_total_witness :
    locateContent docBare = docBare ∧
    (extract_body_content docBare).main_paragraphs = [] ∧
    (extract_body_content docBare).word_count = 0 ∧
    (extract_body_content docBare).has_subheadings = false ∧
    (extract_body_content docBare).has_bullet_lists = false ∧
    (extract_body_content docBare).has_collapsible_sections = false :=
  ⟨(extract_body_content_total docBare).2.2.2.1 rfl rfl rfl,
   ((extract_body_content_total docBare).2.2.2.2.1 rfl).1,
   ((extract_body_content_total docBare).2.2.2.2.1 rfl).2,
   ((extract_body_content_total docBare).2.2.2.2.2.1
     (by intro t ht; fin_cases ht <;> rfl)).1,
   (extract_body_content_total docBare).2.2.2.2.2.2.1 rfl rfl,
   (extract_body_content_total docBare).2.2.2.2.2.2.2 rfl⟩

/-! ## extract_faculty_links (akuh_scraper.py lines 129-187,
    akuh_scrape_and_upload.py lines 221-264) -/

/-- Match of the regex [?&]Spec=([^&]+) at the very start of the
    string: a query marker, the literal Spec=, then a nonempty capture
    up to the next ampersand. -/
def specAt (l : Str) : Option Str :=
  match l with
  | c :: rest =>
    if (c == '?' || c == '&') && (chars "Spec=").isPrefixOf rest then
      let cap := (rest.drop 5).takeWhile (fun d => !(d == '&'))
      if cap.isEmpty then none else some cap
    else none
  | [] => none

/-- Leftmost match of [?&]Spec=([^&]+) anywhere in the string
    (re.search). -/
def findSpec : Str → Option Str
  | [] => none
  | c :: cs =>
    match specAt (c :: cs) with
    | some m => some m
    | none => findSpec cs

/-- extract_specialty_from_url (akuh_scraper.py lines 182-187). -/
def extract_specialty_from_url (url : Str) : Str := (findSpec url).getD []

/-- The href attribute with the empty-string default of link.get. -/
def hrefOf (n : Node) : Str := (attrOf n (chars "href")).getD []

/-- An a element carrying an href attribute (find('a', href=True)). -/
def isAnchorWithHref (n : Node) : Bool :=
  isTag n (chars "a") && hasAttr n (chars "href")

/-- Pattern 1: for each h4 of the document, its first a descendant
    with an href, kept when the href contains /findadoctor.aspx. -/
def facultyPattern1 (soup : Node) : List FacultyLink :=
  (findAllTag soup (chars "h4")).filterMap (fun h4 =>
    match findFirst h4 isAnchorWithHref with
    | some link =>
      if containsSub (chars "/findadoctor.aspx") (hrefOf link) then
        some ⟨clean_text (getText link), hrefOf link,
          extract_specialty_from_url (hrefOf link)⟩
      else none
    | none => none)

/-- Pattern 2: every a element with an href containing
    /findadoctor.aspx whose text contains Meet our, Find a Doctor or
    (lowercased) faculty.  The membership test of the source
    (testing the tag against the _elem entries of the collected dicts,
    which are all None) compares
    the tag against a list of None values and never excludes anything;
    duplicates are removed by the dedup stage below. -/
def facultyPattern2 (soup : Node) : List FacultyLink :=
  ((descendants soup).filter isAnchorWithHref).filterMap (fun link =>
    let href := hrefOf link
    let text := clean_text (getText link)
    if containsSub (chars "/findadoctor.aspx") href &&
       (containsSub (chars "Meet our") text ||
        containsSub (chars "Find a Doctor") text ||
        containsSub (chars "faculty") (lowerStr text)) then
      some ⟨text, href, extract_specialty_from_url href⟩
    else none)

/-- The duplicate-removal loop with its seen set of (url, text)
    keys. -/
def dedupFaculty : List FacultyLink → List (Str × Str) → List FacultyLink
  | [], _ => []
  | l :: ls, seen =>
    if (l.url, l.text) ∈ seen then dedupFaculty ls seen
    else l :: dedupFaculty ls ((l.url, l.text) :: seen)

/-- extract_faculty_links from akuh_scraper.py lines 129-179. -/
def extract_faculty_links (soup : Node) : FacultyLinks :=
  let unique := dedupFaculty (facultyPattern1 soup ++ facultyPattern2 soup) []
  ⟨unique.length,
   if unique.length = 1 then chars "single"
   else if 1 < unique.length then chars "multiple"
   else chars "none",
   unique⟩

/-- The dedup loop emits no entry whose key is in the seen set and no
    two entries with the same key. -/
theorem dedupFaculty_spec :
    ∀ (ls : List FacultyLink) (seen : List (Str × Str)),
      (∀ l ∈ dedupFaculty ls seen, (l.url, l.text) ∉ seen) ∧
      List.Pairwise (fun a b => ¬(a.url = b.url ∧ a.text = b.text))
        (dedupFaculty ls seen) := by
  intro ls
  induction ls with
  | nil => intro seen; exact ⟨by intro l hl; simp [dedupFaculty] at hl, by simp [dedupFaculty]⟩
  | cons l ls ih =>
    intro seen
    by_cases hseen : (l.url, l.text) ∈ seen
    · rw [dedupFaculty, if_pos hseen]
      exact ih seen
    · rw [dedupFaculty, if_neg hseen]
      have ihx := ih ((l.url, l.text) :: seen)
      constructor
      · intro x hx
        rcases List.mem_cons.1 hx with h | h
        · rw [h]; exact hseen
        · intro hm
          exact ihx.1 x h (List.mem_cons_of_mem _ hm)
      · refine List.Pairwise.cons ?_ ihx.2
        intro x hx hkey
        have hnot := ihx.1 x hx
        apply hnot
        have : (x.url, x.text) = (l.url, l.text) := by
          rw [hkey.1, hkey.2]
        rw [this]
        exact List.mem_cons_self _ _

/-- C7: the links sequence of extract_faculty_links contains no two
    entries with the same (url, text) pair, and its count field equals
    the length of the deduplicated sequence. -/
theorem extract_faculty_links_nodup (soup : Node) :
    List.Pairwise (fun a b => ¬(a.url = b.url ∧ a.text = b.text))
      (extract_faculty_links soup).links ∧
    (extract_faculty_links soup).count =
      (extract_faculty_links soup).links.length := by
  exact ⟨(dedupFaculty_spec _ []).2, rfl⟩

/-- A document carrying the same doctor-search link twice (once under
    an h4, once inline with a Meet our text). -/
def docFac : Node :=
  .elem (chars "html") []
    [.elem (chars "body") []
      [.elem (chars "h4") []
        [.elem (chars "a") [(chars "href", chars "/findadoctor.aspx?Spec=Cardiology")]
          [.txt (chars "Meet our Cardiology faculty")]],
       .elem (chars "p") []
        [.elem (chars "a") [(chars "href", chars "/findadoctor.aspx?Spec=Cardiology")]
          [.txt (chars "Meet our Cardiology faculty")]]]]

theorem extract_faculty_links_nodup_witness :
    List.Pairwise (fun a b => ¬(a.url = b.url ∧ a.text = b.text))
      (extract_faculty_links docFac).links ∧
    (extract_faculty_links docFac).count =
      (extract_faculty_links docFac).links.length :=
  extract_faculty_links_nodup docFac

/-! ## extract_appointment_section (akuh_scraper.py lines 190-243,
    akuh_scrape_and_upload.py lines 267-307) -/

/-- The paragraph condition of the source: the cleaned text contains
    "Request an Appointment", or its lowercasing contains the
    lowercase phrase (the first disjunct is subsumed by the second;
    together they are case-insensitive containment). -/
def apptParaCond (p : Node) : Bool :=
  let text := clean_text (getText p)
  containsSub (chars "Request an Appointment") text ||
  containsSub (chars "request an appointment") (lowerStr text)

/-- Match of the regex \(\d{3}\)\d{3}\d{6} at the very start of the
    string: an opening parenthesis, three digits, a closing
    parenthesis, nine digits. -/
def phoneAt (l : Str) : Option Str :=
  match l with
  | '(' :: r =>
    let d3 := r.take 3
    if d3.length = 3 && d3.all Char.isDigit then
      match r.drop 3 with
      | ')' :: r2 =>
        let d9 := r2.take 9
        if d9.length = 9 && d9.all Char.isDigit then
          some (('(' :: d3) ++ (')' :: d9))
        else none
      | _ => none
    else none
  | _ => none

/-- Leftmost match of the phone pattern anywhere in the string
    (re.search). -/
def findPhone : Str → Option Str
  | [] => none
  | c :: cs =>
    match phoneAt (c :: cs) with
    | some m => some m
    | none => findPhone cs

/-- The initialised appointment dictionary (all fallbacks). -/
def apptDefault : AppointmentSection :=
  ⟨false, [], ⟨false, [], []⟩, [], ⟨false, false, false⟩⟩

/-- The appointment record built from the first matching paragraph:
    heading literal, first phone match in the cleaned text, first a
    descendant with href as the click link, app-brand mention, and
    store-badge images among the img descendants of the paragraph. -/
def apptFromPara (p : Node) : AppointmentSection :=
  let text := clean_text (getText p)
  ⟨true, chars "Request an Appointment",
   (match findFirst p isAnchorWithHref with
    | some a => ⟨true, clean_text (getText a), hrefOf a⟩
    | none => ⟨false, [], []⟩),
   (findPhone text).getD [],
   ⟨containsSub (chars "Family Hifazat") text ||
      containsSub (chars "family hifazat") (lowerStr text),
    (findAllTag p (chars "img")).any (fun img =>
      let src := lowerStr ((attrOf img (chars "src")).getD [])
      containsSub (chars "google play") src || containsSub (chars "playstore") src),
    (findAllTag p (chars "img")).any (fun img =>
      let src := lowerStr ((attrOf img (chars "src")).getD [])
      containsSub (chars "app store") src || containsSub (chars "appstore") src)⟩⟩

/-- The first paragraph, in document order, satisfying the
    appointment condition (the loop breaks at the first match). -/
def firstApptPara (soup : Node) : Option Node :=
  (findAllTag soup (chars "p")).find? apptParaCond

/-- extract_appointment_section from akuh_scraper.py lines 190-243. -/
def extract_appointment_section (soup : Node) : AppointmentSection :=
  match firstApptPara soup with
  | some p => apptFromPara p
  | none => apptDefault

theorem isPrefixOf_map (f : Char → Char) :
    ∀ n t : Str, n.isPrefixOf t = true → (n.map f).isPrefixOf (t.map f) = true := by
  intro n
  induction n with
  | nil => intro t _; simp [List.isPrefixOf]
  | cons a n ih =>
    intro t h
    cases t with
    | nil => simp [List.isPrefixOf] at h
    | cons b t =>
      simp only [List.isPrefixOf, Bool.and_eq_true, beq_iff_eq] at h
      simp only [List.map_cons, List.isPrefixOf, Bool.and_eq_true, beq_iff_eq]
      exact ⟨by rw [h.1], ih t h.2⟩

theorem containsSub_nil (n : Str) : containsSub n [] = n.isEmpty := by
  cases n <;> rfl

theorem containsSub_cons (n : Str) (c : Char) (cs : Str) :
    containsSub n (c :: cs) = (n.isPrefixOf (c :: cs) || containsSub n cs) := by
  simp [containsSub, List.tails]

/-- Substring containment is preserved by character-wise mapping. -/
theorem containsSub_map (f : Char → Char) (n : Str) :
    ∀ h : Str, containsSub n h = true →
      containsSub (n.map f) (h.map f) = true := by
  intro h
  induction h with
  | nil =>
    intro hc
    rw [containsSub_nil] at hc
    have : n = [] := by
      cases n with
      | nil => rfl
      | cons a l => simp at hc
    rw [this]
    rfl
  | cons c cs ih =>
    intro hc
    rw [containsSub_cons] at hc
    rw [List.map_cons, containsSub_cons]
    rcases Bool.or_eq_true_iff.1 hc with h1 | h1
    · have := isPrefixOf_map f n (c :: cs) h1
      rw [List.map_cons] at this
      rw [this]
      rfl
    · rw [ih h1]
      simp

/-- The source condition is exactly case-insensitive containment of
    the phrase. -/
theorem apptParaCond_ci (p : Node) :
    apptParaCond p =
      containsSub (chars "request an appointment")
        (lowerStr (clean_text (getText p))) := by
  show (containsSub (chars "Request an Appointment") (clean_text (getText p)) ||
    containsSub (chars "request an appointment")
      (lowerStr (clean_text (getText p)))) = _
  rcases hcase : containsSub (chars "Request an Appointment")
      (clean_text (getText p)) with _ | _
  · simp
  · have := containsSub_map Char.toLower _ _ hcase
    have heq : (chars "Request an Appointment").map Char.toLower =
        chars "request an appointment" := by decide
    rw [heq] at this
    show (true || _) = _
    simp only [lowerStr]
    rw [this]
    rfl

theorem find?_of_split {α : Type} (p : α → Bool) :
    ∀ (l1 : List α) (x : α) (l2 : List α),
      (∀ q ∈ l1, p q = false) → p x = true →
      (l1 ++ x :: l2).find? p = some x := by
  intro l1
  induction l1 with
  | nil =>
    intro x l2 _ hx
    simp [List.find?_cons_of_pos _ hx]
  | cons a l1 ih =>
    intro x l2 hq hx
    have ha : p a = false := hq a (List.mem_cons_self a l1)
    rw [List.cons_append, List.find?_cons_of_neg _ (by simp [ha])]
    exact ih x l2 (fun q hq2 => hq q (List.mem_cons_of_mem _ hq2)) hx

/-- C8: appointment extraction inspects exactly the first paragraph
    (document order) whose cleaned text contains the phrase
    case-insensitively; when it exists, every component of the result
    is computed from that paragraph alone (heading literal, leftmost
    phone-pattern match of the cleaned text with empty-string
    fallback, first hyperlink inside the paragraph as the click link),
    and any two documents with the same first matching paragraph get
    identical results, so later paragraphs never influence any
    field. -/
theorem extract_appointment_section_first_match (soup : Node) :
    ((extract_appointment_section soup).present = (firstApptPara soup).isSome) ∧
    (∀ p, firstApptPara soup = some p →
      extract_appointment_section soup = apptFromPara p ∧
      (extract_appointment_section soup).phone_number =
        (findPhone (clean_text (getText p))).getD [] ∧
      (extract_appointment_section soup).click_here_link =
        (match findFirst p isAnchorWithHref with
         | some a => ⟨true, clean_text (getText a), hrefOf a⟩
         | none => ⟨false, [], []⟩)) ∧
    (∀ p : Node, apptParaCond p =
      containsSub (chars "request an appointment")
        (lowerStr (clean_text (getText p)))) ∧
    (∀ l1 p l2, findAllTag soup (chars "p") = l1 ++ p :: l2 →
      (∀ q ∈ l1, apptParaCond q = false) → apptParaCond p = true →
      firstApptPara soup = some p) ∧
    (∀ soup₂, firstApptPara soup = firstApptPara soup₂ →
      extract_appointment_section soup = extract_appointment_section soup₂) := by
  refine ⟨?_, ?_, ?_, ?_, ?_⟩
  · rcases h : firstApptPara soup with _ | p
    · simp [extract_appointment_section, h, apptDefault]
    · simp [extract_appointment_section, h, apptFromPara]
  · intro p h
    refine ⟨by simp [extract_appointment_section, h], ?_, ?_⟩
    · simp [extract_appointment_section, h, apptFromPara]
    · simp only [extract_appointment_section, h]
      rfl
  · exact apptParaCond_ci
  · intro l1 p l2 hsplit hq hp
    show (findAllTag soup (chars "p")).find? apptParaCond = some p
    rw [hsplit]
    exact find?_of_split apptParaCond l1 p l2 hq hp
  · intro soup₂ h
    simp [extract_appointment_section, h]

/-- The first appointment paragraph of the witness document. -/
def apptP1 : Node :=
  .elem (chars "p") []
    [.txt (chars "To Request an Appointment, call "),
     .txt (chars "(021)111911911 or "),
     .elem (chars "a") [(chars "href", chars "/book.html")]
       [.txt (chars "Click here")]]

/-- A later paragraph that also matches but must be ignored. -/
def apptP2 : Node :=
  .elem (chars "p") []
    [.txt (chars "request an appointment at (999)123456789 instead")]

def docAppt : Node :=
  .elem (chars "html") []
    [.elem (chars "body") [] [apptP1, apptP2]]

theorem extract_appointment_section_first_match_witness :
    extract_appointment_section docAppt = apptFromPara apptP1 ∧
    (extract_appointment_section docAppt).phone_number =
      chars "(021)111911911" ∧
    (extract_appointment_section docAppt).click_here_link =
      ⟨true, chars "Click here", chars "/book.html"⟩ := by
  have h := (extract_appointment_section_first_match docAppt).2.1 apptP1 rfl
  refine ⟨h.1, ?_, ?_⟩
  · rw [h.2.1]; rfl
  · rw [h.2.2]; rfl

/-! ## extract_external_links (akuh_scraper.py lines 286-314,
    akuh_scrape_and_upload.py lines 339-361) -/

mutual
/-- Proper descendants of a node in document order, each paired with
    its chain of ancestors (immediate parent first); the accumulator
    is the ancestor chain above the node being visited. -/
def nodeWithChains (anc : List Node) : Node → List (Node × List Node)
  | .txt _ => []
  | .elem t a ch => childrenWithChains (Node.elem t a ch :: anc) ch

def childrenWithChains (anc : List Node) : List Node → List (Node × List Node)
  | [] => []
  | c :: cs => (c, anc) :: (nodeWithChains anc c ++ childrenWithChains anc cs)
end

/-- Every descendant of the document root with its ancestor chain. -/
def descChains (soup : Node) : List (Node × List Node) := nodeWithChains [] soup

/-- The stringified class attribute of the immediate parent as the
    source reads it with an empty default: the class
    attribute of the immediate parent, empty when absent.  (For a
    multi-valued class attribute the source stringifies the token
    list; an occurrence of "breadcrumb" cannot span a token boundary,
    so checking the raw attribute string is equivalent.) -/
def parentClassStr (chain : List Node) : Str :=
  match chain with
  | par :: _ => (attrOf par (chars "class")).getD []
  | [] => []

/-- The link-type classification of the source: external when the
    href starts with "http" and does not contain "aku.edu" anywhere,
    else document when it ends with a known document extension, else
    internal. -/
def classifyHref (href : Str) : Str :=
  if (chars "http").isPrefixOf href && !(containsSub (chars "aku.edu") href) then
    chars "external"
  else if (chars ".pdf").isSuffixOf href || (chars ".doc").isSuffixOf href ||
          (chars ".docx").isSuffixOf href || (chars ".xlsx").isSuffixOf href then
    chars "document"
  else chars "internal"

/-- The per-link body of the extraction loop. -/
def extLinkEntry (n : Node) (chain : List Node) : Option ExternalLink :=
  if isAnchorWithHref n then
    let href := hrefOf n
    let text := clean_text (getText n)
    if text.isEmpty || href.isEmpty then none
    else if containsSub (chars "/findadoctor.aspx") href ||
            containsSub (chars "breadcrumb") (parentClassStr chain) then none
    else some ⟨text, href, classifyHref href⟩
  else none

/-- extract_external_links from akuh_scraper.py lines 286-314. -/
def extract_external_links (soup : Node) : List ExternalLink :=
  (descChains soup).filterMap (fun pr => extLinkEntry pr.1 pr.2)

/-- The absolute-URL test of the claim, modelled from the spec words:
    an http or https scheme followed by a host. -/
def specIsAbsolute (href : Str) : Bool :=
  (chars "http://").isPrefixOf href || (chars "https://").isPrefixOf href

/-- The host of an absolute URL, modelled from the spec words: the
    substring after the scheme up to the first slash, colon, question
    mark or hash. -/
def urlHost (href : Str) : Str :=
  if (chars "https://").isPrefixOf href then
    (href.drop 8).takeWhile (fun c => !(c == '/' || c == ':' || c == '?' || c == '#'))
  else if (chars "http://").isPrefixOf href then
    (href.drop 7).takeWhile (fun c => !(c == '/' || c == ':' || c == '?' || c == '#'))
  else []

/-- The spec reading of "external": the URL is absolute and its host
    is not the own domain of the organisation. -/
def specIsExternal (href : Str) : Bool :=
  specIsAbsolute href && !(urlHost href == chars "aku.edu")

/-- An absolute link to a foreign host whose path mentions aku.edu. -/
def cexLinkA : Node :=
  .elem (chars "a") [(chars "href", chars "http://example.com/aku.edu")]
    [.txt (chars "Partner")]

/-- A relative link whose path happens to start with "http". -/
def cexLinkB : Node :=
  .elem (chars "a") [(chars "href", chars "httpfiles/brochure")]
    [.txt (chars "Brochure")]

def docExt : Node :=
  .elem (chars "html") []
    [.elem (chars "body") [] [.elem (chars "div") [] [cexLinkA, cexLinkB]]]

/-- C9 counterexample: both links of docExt pass every filter of the
    claim, yet the first (absolute URL, host example.com, merely
    containing "aku.edu" in its path) is emitted as internal although
    the claim requires external, and the second (a relative URL
    starting with the letters "http") is emitted as external although
    it is not absolute.  The code tests substring containment of
    "aku.edu" in the whole URL and str.startswith("http"), not the
    host of an absolute URL. -/
theorem extract_external_links_counterexample :
    extract_external_links docExt =
      [⟨chars "Partner", chars "http://example.com/aku.edu", chars "internal"⟩,
       ⟨chars "Brochure", chars "httpfiles/brochure", chars "external"⟩] ∧
    specIsExternal (chars "http://example.com/aku.edu") = true ∧
    specIsExternal (chars "httpfiles/brochure") = false := by
  refine ⟨rfl, by decide, by decide⟩

/-- C9 (amended): every hyperlink with nonempty cleaned text and
    nonempty href that is not a doctor-search link and has no
    breadcrumb-classed ancestor (the code checks only the immediate
    parent, which such a link in particular satisfies) is emitted, and
    it is classified external exactly when its URL string starts with
    "http" and does not contain "aku.edu" anywhere; document exactly
    when it is not external and ends with a known document extension;
    internal otherwise. -/
theorem extract_external_links_amended (soup : Node) :
    (∀ pr ∈ descChains soup,
      isAnchorWithHref pr.1 = true →
      clean_text (getText pr.1) ≠ [] →
      hrefOf pr.1 ≠ [] →
      containsSub (chars "/findadoctor.aspx") (hrefOf pr.1) = false →
      (∀ anc ∈ pr.2, containsSub (chars "breadcrumb")
        ((attrOf anc (chars "class")).getD []) = false) →
      (⟨clean_text (getText pr.1), hrefOf pr.1, classifyHref (hrefOf pr.1)⟩ :
        ExternalLink) ∈ extract_external_links soup) ∧
    (∀ href : Str,
      (classifyHref href = chars "external" ↔
        ((chars "http").isPrefixOf href = true ∧
         containsSub (chars "aku.edu") href = false)) ∧
      (classifyHref href = chars "document" ↔
        (¬((chars "http").isPrefixOf href = true ∧
           containsSub (chars "aku.edu") href = false) ∧
         ((chars ".pdf").isSuffixOf href = true ∨
          (chars ".doc").isSuffixOf href = true ∨
          (chars ".docx").isSuffixOf href = true ∨
          (chars ".xlsx").isSuffixOf href = true)))) := by
  constructor
  · rintro ⟨n, chain⟩ hmem ha htext href hdoc hbread
    apply List.mem_filterMap.2
    refine ⟨(n, chain), hmem, ?_⟩
    have hparent : containsSub (chars "breadcrumb") (parentClassStr chain) = false := by
      cases chain with
      | nil => rfl
      | cons par rest => exact hbread par (List.mem_cons_self _ _)
    have htext2 : (clean_text (getText n)).isEmpty = false := by
      cases hcl : clean_text (getText n) with
      | nil => exact absurd hcl htext
      | cons a l => rfl
    have href2 : (hrefOf n).isEmpty = false := by
      cases hcl : hrefOf n with
      | nil => exact absurd hcl href
      | cons a l => rfl
    show extLinkEntry n chain = _
    rw [extLinkEntry, if_pos ha]
    simp only [htext2, href2, hdoc, hparent, Bool.or_self, Bool.or_false,
      if_neg (by simp : ¬(false = true))]
  · intro href
    constructor
    · constructor
      · intro h
        by_contra hc
        rw [classifyHref] at h
        rw [if_neg ?_] at h
        · split_ifs at h <;> exact absurd h (by decide)
        · intro hcond
          rcases Bool.and_eq_true_iff.1 hcond with ⟨h1, h2⟩
          exact hc ⟨h1, by simpa using h2⟩
      · rintro ⟨h1, h2⟩
        rw [classifyHref, if_pos (by rw [h1, h2]; rfl)]
    · constructor
      · intro h
        rw [classifyHref] at h
        by_cases hext : (chars "http").isPrefixOf href &&
            !(containsSub (chars "aku.edu") href)
        · rw [if_pos hext] at h
          exact absurd h (by decide)
        · rw [if_neg hext] at h
          constructor
          · intro hc
            apply hext
            rw [hc.1, hc.2]
            rfl
          · by_cases hdocx : (chars ".pdf").isSuffixOf href ||
                (chars ".doc").isSuffixOf href ||
                (chars ".docx").isSuffixOf href ||
                (chars ".xlsx").isSuffixOf href
            · rcases Bool.or_eq_true_iff.1 hdocx with h1 | h1
              · rcases Bool.or_eq_true_iff.1 h1 with h2 | h2
                · rcases Bool.or_eq_true_iff.1 h2 with h3 | h3
                  · exact Or.inl h3
                  · exact Or.inr (Or.inl h3)
                · exact Or.inr (Or.inr (Or.inl h2))
              · exact Or.inr (Or.inr (Or.inr h1))
            · rw [if_neg hdocx] at h
              exact absurd h (by decide)
      · rintro ⟨h1, h2⟩
        rw [classifyHref, if_neg ?_]
        · rw [if_pos ?_]
          rcases h2 with h | h | h | h <;> simp [h]
        · intro hcond
          rcases Bool.and_eq_true_iff.1 hcond with ⟨ha, hb⟩
          exact h1 ⟨ha, by simpa using hb⟩

/-- A clean external link for the witness. -/
def wLinkW : Node :=
  .elem (chars "a") [(chars "href", chars "https://www.who.int/x")]
    [.txt (chars "WHO")]

def docExtW : Node := .elem (chars "div") [] [wLinkW]

theorem extract_external_links_amended_witness :
    (⟨chars "WHO", chars "https://www.who.int/x",
       classifyHref (chars "https://www.who.int/x")⟩ : ExternalLink) ∈
      extract_external_links docExtW ∧
    classifyHref (chars "https://www.who.int/x") = chars "external" := by
  have hlist : descChains docExtW =
      (wLinkW, [docExtW]) :: [(Node.txt (chars "WHO"), [wLinkW, docExtW])] := rfl
  constructor
  · exact (extract_external_links_amended docExtW).1 (wLinkW, [docExtW])
      (by rw [hlist]; exact List.mem_cons_self _ _)
      rfl (by decide) (by decide) rfl
      (by intro anc h
          simp only [List.mem_singleton] at h
          subst h
          rfl)
  · rfl
